import Mathlib

/-!
Verification of the etymological repository core against its specification.

This file shallowly embeds the Python functions named by the claims:

* `scripts/utils_roots.py`: `canonical_id` (root canonicalization),
  `looks_like_trivial_affix` (triviality filter);
* `scripts/build_roots.py`: the multi-source consensus admission step of
  `WiktionaryProcessor.process_jsonl_file`;
* `src/etymobot/database.py`: `record_word_failure`, `is_word_problematic`,
  `is_pair_posted`;
* `scripts/post.py`: `PairSelector` (posted-pair history and
  `select_fresh_pair` candidate enumeration).

Modelling conventions:

* Strings are Lean `String`s processed as `List Char`.
* Character classification is expressed numerically on `Char.toNat`.
  Unicode approximations (documented at each definition): codepoints at and
  above 128 are treated as word characters and letters, matching the
  behaviour of Python `\w` / `str.isalpha` on the letter-like codepoints that
  survive combining-mark removal; `str.upper` / `str.lower` are modelled on
  the ASCII range; NFD decomposition is modelled by a character-wise table
  covering the Latin-diacritic repertoire appearing in the repository, and
  combining-mark removal covers the combining diacritical marks block.
  Every concrete input appearing in a theorem below is ASCII, where these
  functions agree exactly with Python.
* Python `re.sub` calls are embedded by dedicated scanners.  Each regex used
  by `canonical_id` has the shape literal-prefix / character-class-star /
  literal-suffix (or a leading one-class group); since in every pattern the
  class never contains the first suffix character, the greedy star needs no
  backtracking, and leftmost non-overlapping scanning is implemented
  directly.  The scanners carry a fuel argument equal to the input length so
  that they are structurally recursive (each step consumes at least one
  input character, so the fuel never runs out).
-/

/-- ASCII uppercase letter `A`-`Z`. -/
def isUpperAZ (c : Char) : Bool :=
  65 ≤ c.toNat && c.toNat ≤ 90

/-- ASCII lowercase letter `a`-`z`. -/
def isLowerAZ (c : Char) : Bool :=
  97 ≤ c.toNat && c.toNat ≤ 122

/-- ASCII digit `0`-`9`, as matched by `[0-9]` and (on ASCII) `str.isdigit`. -/
def isDigitC (c : Char) : Bool :=
  48 ≤ c.toNat && c.toNat ≤ 57

/-- Whitespace stripped by Python `str.strip()` (ASCII repertoire). -/
def isPyWS (c : Char) : Bool :=
  c.toNat == 32 || c.toNat == 9 || c.toNat == 10 || c.toNat == 13 ||
    c.toNat == 11 || c.toNat == 12

/-- Python `str.isalpha`, approximated: ASCII letters, and any codepoint at or
above 128 (the non-ASCII codepoints reaching this check are letter-like). -/
def pyIsAlpha (c : Char) : Bool :=
  isUpperAZ c || isLowerAZ c || 128 ≤ c.toNat

/-- A `\w` word character as kept by `re.sub(r'[^\w\-]', '', root)`:
alphanumeric or underscore, with non-ASCII codepoints treated as word
characters (see the header comment). -/
def isWordChar (c : Char) : Bool :=
  isUpperAZ c || isLowerAZ c || isDigitC c || c.toNat == 95 || 128 ≤ c.toNat

/-- Python `str.lower` on one character (ASCII range). -/
def pyLower (c : Char) : Char :=
  if 65 ≤ c.toNat && c.toNat ≤ 90 then Char.ofNat (c.toNat + 32) else c

/-- Python `str.upper` on one character (ASCII range). -/
def pyUpper (c : Char) : Char :=
  if 97 ≤ c.toNat && c.toNat ≤ 122 then Char.ofNat (c.toNat - 32) else c

/-- Lowercase a character list (`str.lower`). -/
def toLowerL (cs : List Char) : List Char :=
  cs.map pyLower

/-- Python `str.strip()`: drop leading and trailing whitespace. -/
def pyStrip (cs : List Char) : List Char :=
  ((cs.dropWhile isPyWS).reverse.dropWhile isPyWS).reverse

/-- Python substring containment (`needle in hay`). -/
def isSubList (needle : List Char) : List Char → Bool
  | [] => needle.isEmpty
  | c :: rest => needle.isPrefixOf (c :: rest) || isSubList needle rest

/-! ## Root canonicalization: `canonical_id` (scripts/utils_roots.py) -/

/-- The `prefixes_to_remove` list of `canonical_id`, in source order. -/
def prefixesToRemove : List String :=
  ["PIE ", "Proto-Indo-European ", "Proto-Germanic ", "Proto-Celtic ",
   "Proto-Slavic ", "Proto-Baltic ", "Sanskrit ", "Latin ", "Greek ",
   "from ", "ultimately from ", "root ", "the root "]

/-- The prefix-stripping loop of `canonical_id`: remove the first matching
language/prefix label (case-insensitive comparison, case-preserving removal)
and strip the remainder. -/
def dropLangLabel (root : List Char) : List Char :=
  match prefixesToRemove.find?
      (fun p => (toLowerL p.toList).isPrefixOf (toLowerL root)) with
  | some p => pyStrip (root.drop p.toList.length)
  | none => root

/-- Inside a `(...)` suffix: zero or more digits then `)` ending the string. -/
def closeParen : List Char → Bool
  | [] => false
  | c :: rest => if isDigitC c then closeParen rest
      else c.toNat == 41 && rest.isEmpty

/-- After `(`: at least one digit, then `)` ending the string. -/
def parenPart : List Char → Bool
  | [] => false
  | c :: rest => isDigitC c && closeParen rest

/-- The tail of the canonical surface form: `[A-Z\-]*(\([0-9]+\))?$`. -/
def canonTail : List Char → Bool
  | [] => true
  | c :: rest =>
    if c.toNat == 40 then parenPart rest
    else (isUpperAZ c || c.toNat == 45) && canonTail rest

/-- The early-return test of `canonical_id`:
`re.match(r'^[A-Z][A-Z\-]*(\([0-9]+\))?$', root)`. -/
def matchCanon : List Char → Bool
  | [] => false
  | c :: rest => isUpperAZ c && canonTail rest

/-- Character-wise NFD decomposition table for the Latin-diacritic repertoire
appearing in this repository (identity elsewhere; see the header comment). -/
def nfdChar (c : Char) : List Char :=
  if c.toNat == 0xE0 then ['a', '̀']
  else if c.toNat == 0xE1 then ['a', '́']
  else if c.toNat == 0xE8 then ['e', '̀']
  else if c.toNat == 0xE9 then ['e', '́']
  else if c.toNat == 0xED then ['i', '́']
  else if c.toNat == 0xF3 then ['o', '́']
  else if c.toNat == 0xFA then ['u', '́']
  else if c.toNat == 0xE4 then ['a', '̈']
  else if c.toNat == 0xF6 then ['o', '̈']
  else if c.toNat == 0xFC then ['u', '̈']
  else if c.toNat == 0x1E31 then ['k', '́']
  else if c.toNat == 0x1E33 then ['k', '̣']
  else [c]

/-- Combining marks (Unicode category Mn) removed by `canonical_id`,
covering the combining diacritical marks blocks. -/
def isMn (c : Char) : Bool :=
  (0x300 ≤ c.toNat && c.toNat ≤ 0x36F) ||
    (0x1AB0 ≤ c.toNat && c.toNat ≤ 0x1AFF) ||
    (0x1DC0 ≤ c.toNat && c.toNat ≤ 0x1DFF) ||
    (0x20D0 ≤ c.toNat && c.toNat ≤ 0x20FF) ||
    (0xFE20 ≤ c.toNat && c.toNat ≤ 0xFE2F)

/-- Longest leading run of digits of a character list. -/
def digitsSpan : List Char → List Char × List Char
  | [] => ([], [])
  | c :: rest =>
    if isDigitC c then
      let (d, r) := digitsSpan rest
      (c :: d, r)
    else ([], c :: rest)

/-- `re.search(r'\((\d+)\)$', root)`: split a trailing numbered-sense suffix
`(N)` off the root, returning `(body, suffix)` with `suffix = []` when the
root does not end in `(digits)`. -/
def splitNumberedSuffix (cs : List Char) : List Char × List Char :=
  match cs.reverse with
  | c :: rev1 =>
    if c.toNat == 41 then
      let (ds, rest2) := digitsSpan rev1
      match rest2 with
      | o :: rest3 =>
        if o.toNat == 40 && !ds.isEmpty then
          (rest3.reverse, ('(' :: ds.reverse) ++ [')'])
        else (cs, [])
      | [] => (cs, [])
    else (cs, [])
  | [] => (cs, [])

/-- The consonant class `[BCDFGHJKLMNPQRSTVWXYZ]` of the gemination and
group regexes. -/
def upperConsonants : List Char :=
  "BCDFGHJKLMNPQRSTVWXYZ".toList

/-- `re.sub(r'([BCDFGHJKLMNPQRSTVWXYZ])\1+', r'\1', root)`: collapse each
maximal run of identical uppercase consonants to a single occurrence. -/
def collapseGem : List Char → List Char
  | [] => []
  | [a] => [a]
  | a :: b :: rest =>
    if a == b && upperConsonants.contains a then collapseGem (b :: rest)
    else a :: collapseGem (b :: rest)

/-- `re.sub` for a pattern `PRE[CLS]*SUF -> REPL` where `PRE = p :: ps` and
the first character of `SUF` is never in `CLS` (so the greedy star needs no
backtracking): scan left to right, replace each non-overlapping match, and
continue after the match.  `fuel` is initialized to the input length by
`subPCS`; every step consumes at least one input character, so it never runs
out. -/
def subPCSAux (p : Char) (ps cls suf repl : List Char) :
    Nat → List Char → List Char
  | _, [] => []
  | 0, cs => cs
  | fuel + 1, c :: rest =>
    if c == p && ps.isPrefixOf rest then
      let tail := (rest.drop ps.length).dropWhile cls.contains
      if suf.isPrefixOf tail then
        repl ++ subPCSAux p ps cls suf repl fuel (tail.drop suf.length)
      else c :: subPCSAux p ps cls suf repl fuel rest
    else c :: subPCSAux p ps cls suf repl fuel rest

/-- `re.sub(PRE ++ [CLS]* ++ SUF, REPL, cs)`; see `subPCSAux`. -/
def subPCS (p : Char) (ps cls suf repl cs : List Char) : List Char :=
  subPCSAux p ps cls suf repl cs.length cs

/-- `re.sub` for a pattern `([CLS]+)SUF -> \1 ++ REPLSUF` where the first
character of `SUF` is never in `CLS`: the greedy group is the maximal class
run at the match position.  Fuel as in `subPCSAux`. -/
def subGrpAux (cls suf replSuf : List Char) : Nat → List Char → List Char
  | _, [] => []
  | 0, cs => cs
  | fuel + 1, c :: rest =>
    if cls.contains c then
      let run := (c :: rest).takeWhile cls.contains
      let tail := (c :: rest).dropWhile cls.contains
      if suf.isPrefixOf tail then
        run ++ replSuf ++ subGrpAux cls suf replSuf fuel (tail.drop suf.length)
      else c :: subGrpAux cls suf replSuf fuel rest
    else c :: subGrpAux cls suf replSuf fuel rest

/-- `re.sub(([CLS]+)SUF, \1 ++ REPLSUF, cs)`; see `subGrpAux`. -/
def subGrp (cls suf replSuf cs : List Char) : List Char :=
  subGrpAux cls suf replSuf cs.length cs

/-- The `ablaut_mappings` substitutions of `canonical_id`, applied in the
source dictionary order. -/
def applyAblaut (cs : List Char) : List Char :=
  let r := subPCS 'H' "AB".toList "BJ".toList "AN".toList "HABJAN".toList cs
  let r := subPCS 'H' "AF".toList "FT".toList "AN".toList "HABJAN".toList r
  let r := subPCS 'H' "EB".toList "BJ".toList "AN".toList "HABJAN".toList r
  let r := subPCS 'W' "ER".toList "HDNT".toList [] "WER".toList r
  let r := subPCS 'W' "OR".toList "HDNT".toList [] "WER".toList r
  let r := subPCS 'W' "UR".toList "HDNT".toList [] "WER".toList r
  let r := subPCS 'B' "HEL".toList "HJLW".toList [] "BHEL".toList r
  let r := subPCS 'B' "HOL".toList "HJLW".toList [] "BHEL".toList r
  let r := subPCS 'B' "HUL".toList "HJLW".toList [] "BHEL".toList r
  let r := subPCS 'D' "HE".toList "HJ".toList [] "DHE".toList r
  let r := subPCS 'D' "HO".toList "HJ".toList [] "DHE".toList r
  let r := subPCS 'D' "HA".toList "HJ".toList [] "DHE".toList r
  let r := subGrp upperConsonants "IAN".toList "JAN".toList r
  subGrp upperConsonants "IJ".toList "J".toList r

/-- Keep characters other than `(`, `)` and `-` (the length check of the
validation step). -/
def notPHChar (c : Char) : Bool :=
  !(c.toNat == 40 || c.toNat == 41 || c.toNat == 45)

/-- Keep characters other than `(` and `)` (the `isdigit` check of the
validation step). -/
def notParenChar (c : Char) : Bool :=
  !(c.toNat == 40 || c.toNat == 41)

/-- `re.sub(r'[^A-Z]', '', root)`: the uppercase-letters-only projection. -/
def lettersAZ (root : List Char) : List Char :=
  root.filter isUpperAZ

/-- The `morphological_patterns` stoplist of `canonical_id`. -/
def morphPatterns : List String :=
  ["CAR", "CAT", "BAT", "BAD", "BAG", "BIG", "BOX", "BOY", "BAY",
   "CUP", "CUT", "DOG", "EAR", "EYE", "FAR", "FUN", "GET", "GOT",
   "HAD", "HAS", "HIM", "HIS", "HOW", "ITS", "MAY", "NEW", "NOW",
   "OLD", "OUR", "OUT", "PUT", "RUN", "SAY", "SEE", "SIT", "THE",
   "TOO", "TOP", "TWO", "USE", "WAY", "WHO", "WIN", "YES", "YET"]

/-- The `non_roots` stoplist of `canonical_id`. -/
def nonRoots : List String :=
  ["THE", "AND", "FOR", "ARE", "BUT", "NOT", "YOU", "ALL", "CAN", "HAD",
   "HER", "WAS", "ONE", "OUR", "OUT", "DAY", "GET", "HAS", "HIM", "HIS",
   "HOW", "ITS", "MAY", "NEW", "NOW", "OLD", "SEE", "TWO", "WHO", "BOY",
   "DID", "SHE", "USE", "WAY", "OIL", "SIT", "SET", "RUN", "EAT",
   "ENGLISH", "GERMAN", "FRENCH", "DUTCH", "LATIN", "GREEK", "SANSKRIT",
   "MIDDLE", "PROTO", "ANCIENT", "EARLY", "COGNATE", "RELATED", "COMPARE",
   "ALSO", "WORD", "TERM", "MEANING", "SENSE", "LITERALLY", "ORIGINALLY",
   "PROBABLY", "POSSIBLY", "PERHAPS", "SCOTS", "WELSH", "IRISH", "NORSE",
   "GERMANIC", "CELTIC", "SLAVIC", "INFLUENCED", "BORROWED", "AKIN"]

/-- The transformation pipeline of `canonical_id` between the early-return
test and the validation step: NFD decomposition, combining-mark removal,
numbered-suffix extraction, punctuation removal, uppercasing, gemination
collapse, ablaut substitutions, hyphen removal, suffix re-attachment. -/
def normalizeRoot (root : List Char) : List Char :=
  let r := root.flatMap nfdChar
  let r := r.filter (fun c => !isMn c)
  let (body, suffix) := splitNumberedSuffix r
  let body := body.filter (fun c => isWordChar c || c.toNat == 45)
  let body := body.map pyUpper
  let body := collapseGem body
  let body := applyAblaut body
  let body := body.filter (fun c => c.toNat != 45)
  body ++ suffix

/-- The validation step of `canonical_id`: reject results that are too short
(fewer than 3 characters once parentheses and hyphens are removed), purely
numeric, letterless, on the 3-letter morphological stoplist, or on the
non-root stoplist. -/
def validateRoot (root : List Char) : Option (List Char) :=
  if (root.filter notPHChar).length < 3 then none
  else if !(root.filter notParenChar).isEmpty
      && (root.filter notParenChar).all isDigitC then none
  else if !root.any pyIsAlpha then none
  else if (lettersAZ root).length == 3
      && morphPatterns.contains (String.mk (lettersAZ root)) then none
  else if nonRoots.contains (String.mk (lettersAZ root)) then none
  else some root

/-- The cleanup stage of `canonical_id`: strip whitespace, remove the first
matching language/prefix label, strip leading reconstruction asterisks, and
strip again. -/
def preClean (raw : List Char) : List Char :=
  pyStrip ((dropLangLabel (pyStrip raw)).dropWhile (fun c => c.toNat == 42))

/-- `canonical_id` (scripts/utils_roots.py): canonicalize a raw root string,
returning `none` for junk/invalid roots.  Python's two initial emptiness
guards return `None`; here an empty cleaned root falls through to
`validateRoot`, which rejects it by the length check, so the guards are not
repeated. -/
def canonicalId (raw : String) : Option String :=
  let root := preClean raw.toList
  if matchCanon root then some (String.mk root)
  else (validateRoot (normalizeRoot root)).map String.mk

/-! ## Triviality filter: `looks_like_trivial_affix` (scripts/utils_roots.py) -/

/-- `root.lower().strip('-')`: the cleaned textual form of a root. -/
def cleanRootForm (root : String) : List Char :=
  let l := toLowerL root.toList
  ((l.dropWhile (fun c => c.toNat == 45)).reverse.dropWhile
    (fun c => c.toNat == 45)).reverse

/-- `looks_like_trivial_affix` (scripts/utils_roots.py): true when the
cleaned root form (length at least 3) occurs as a substring of both
lowercased words; empty root or words yield false. -/
def looksLikeTrivialAffix (root word1 word2 : String) : Bool :=
  if root.toList.isEmpty || word1.toList.isEmpty || word2.toList.isEmpty then
    false
  else if (cleanRootForm root).length < 3 then false
  else
    isSubList (cleanRootForm root) (toLowerL word1.toList) &&
      isSubList (cleanRootForm root) (toLowerL word2.toList)

/-! ## Consensus admission (scripts/build_roots.py, process_jsonl_file)

An observation is one extracted mapping `(root_id, word, page_id)` as
accumulated into `root_data[root_id][word]['page_ids']`.  The admission step
keeps a root when the union of page ids across all its words has at least 2
elements and the root has at least 2 distinct words. -/

/-- The distinct roots appearing in the observation stream (the keys of
`root_data`). -/
def rootsOf (obs : List (String × String × Nat)) : List String :=
  (obs.map (fun o => o.1)).dedup

/-- The distinct words attested for a root (the keys of
`root_data[root_id]`). -/
def rootWords (obs : List (String × String × Nat)) (r : String) :
    List String :=
  ((obs.filter (fun o => o.1 == r)).map (fun o => o.2.1)).dedup

/-- The union of page-id sources across all words of a root
(`all_page_ids`). -/
def rootSources (obs : List (String × String × Nat)) (r : String) :
    List Nat :=
  ((obs.filter (fun o => o.1 == r)).map (fun o => o.2.2)).dedup

/-- The roots admitted into `final_mapping` by the multi-source consensus
step: at least 2 independent sources and at least 2 distinct words. -/
def consensusRoots (obs : List (String × String × Nat)) : List String :=
  (rootsOf obs).filter
    (fun r => decide (2 ≤ (rootSources obs r).length)
      && decide (2 ≤ (rootWords obs r).length))

/-! ## Persistent store (src/etymobot/database.py)

The `failed_words` table is modelled as a finite map from normalized word to
failure count (timestamps are not modelled; no claim mentions them).  The
`posted` table is modelled as a list of rows. -/

/-- `word.lower().strip()`: normalization applied by the database layer. -/
def normWord (w : String) : String :=
  String.mk (pyStrip (toLowerL w.toList))

/-- `record_word_failure`: `INSERT OR REPLACE` with
`COALESCE((SELECT failure_count ...) + 1, 1)` — increment the count of the
normalized word, starting at 1. -/
def recordWordFailure (st : String → Option Nat) (w : String) :
    String → Option Nat :=
  fun x => if x = normWord w then some (((st (normWord w)).getD 0) + 1)
    else st x

/-- `n` successive calls to `record_word_failure w` from state `st`. -/
def recordFailures (st : String → Option Nat) (w : String) :
    Nat → String → Option Nat
  | 0 => st
  | n + 1 => recordWordFailure (recordFailures st w n) w

/-- `is_word_problematic`: true iff a row for the normalized word exists with
`failure_count >= max_word_failures`. -/
def isWordProblematic (maxWordFailures : Nat) (st : String → Option Nat)
    (w : String) : Bool :=
  match st (normWord w) with
  | some c => maxWordFailures ≤ c
  | none => false

/-- One row of the `posted` table (columns not used by any claim are
omitted). -/
structure PostedRow where
  word1 : String
  word2 : String
  root : String
deriving DecidableEq

/-- The query inside `is_pair_posted`: a row matching either orientation of
the normalized pair. -/
def postedQueryRes (tbl : List PostedRow) (w1 w2 : String) : Bool :=
  let n1 := normWord w1
  let n2 := normWord w2
  tbl.any (fun row => (row.word1 == n1 && row.word2 == n2)
    || (row.word1 == n2 && row.word2 == n1))

/-- `is_pair_posted`: run the store query; on any store error return `true`
(conservative: assume posted if the check fails) instead of propagating. -/
def isPairPosted {ε : Type} (table : Except ε (List PostedRow))
    (w1 w2 : String) : Bool :=
  match table with
  | Except.ok tbl => postedQueryRes tbl w1 w2
  | Except.error _ => true

/-! ## Pair selection (scripts/post.py, PairSelector)

`posted_pairs` is the posted history: `_load_posted` inserts both
orientations of every recorded pair, and recording a freshly posted pair
(`log_posted_pair` followed by reload) adds both orientations.
`select_fresh_pair` enumerates all word pairs of every root with at least 2
words, keeps those not in the history and not filtered, and picks one
candidate at random; a pair can be returned only if it is in the candidate
list, so the theorems below quantify over candidate membership.
`looks_like_questionable_pairing` is imported by post.py but defined
nowhere in the repository; it is modelled as an arbitrary predicate
parameter, which only ever removes candidates. -/

/-- One entry of the loaded roots data: root, its word list, optional
gloss. -/
structure RootEntry where
  root : String
  words : List String
  gloss : Option String
deriving DecidableEq

/-- All pairs `(words[i], words[j])` with `i < j`, in enumeration order. -/
def allWordPairs : List String → List (String × String)
  | [] => []
  | w :: ws => ws.map (fun v => (w, v)) ++ allWordPairs ws

/-- Record a pair into the posted history: both orientations are stored. -/
def addPostedBoth (posted : List (String × String)) (p : String × String) :
    List (String × String) :=
  p :: (p.2, p.1) :: posted

/-- The candidate list built by `select_fresh_pair`: for each root with at
least 2 words, every enumerated pair that is not in the posted history and
survives the trivial-affix filter (unless `includeTrivial`) and the
questionable-pairing filter (unless `includeQuestionable`). -/
def candidatePairs (includeTrivial includeQuestionable : Bool)
    (questionable : String → String → String → Bool)
    (roots : List RootEntry) (posted : List (String × String)) :
    List (String × String × String × Option String) :=
  roots.flatMap (fun e =>
    if e.words.length < 2 then []
    else
      (allWordPairs e.words).filterMap (fun q =>
        if (q.1, q.2) ∈ posted then none
        else if !includeTrivial && looksLikeTrivialAffix e.root q.1 q.2 then
          none
        else if !includeQuestionable && questionable e.root q.1 q.2 then none
        else some (e.root, q.1, q.2, e.gloss)))

/-! ## Helper lemmas -/

/-- `Char.ofNat` on a valid (low-range) codepoint round-trips through
`toNat`. -/
lemma toNat_ofNat_valid {n : Nat} (h : n < 55296) :
    (Char.ofNat n).toNat = n := by
  rw [Char.ofNat, dif_pos (Or.inl h)]
  rfl

/-- Characters that can occur in a string accepted by `matchCanon`. -/
def allowedCanonChar (c : Char) : Bool :=
  isUpperAZ c || c.toNat == 45 || c.toNat == 40 || c.toNat == 41 || isDigitC c

lemma allowed_facts {c : Char} (h : allowedCanonChar c = true) :
    (65 ≤ c.toNat ∧ c.toNat ≤ 90) ∨ c.toNat = 45 ∨ c.toNat = 40 ∨
      c.toNat = 41 ∨ (48 ≤ c.toNat ∧ c.toNat ≤ 57) := by
  simp only [allowedCanonChar, isUpperAZ, isDigitC, Bool.or_eq_true,
    Bool.and_eq_true, beq_iff_eq, decide_eq_true_eq] at h
  tauto

lemma closeParen_chars : ∀ cs, closeParen cs = true →
    ∀ c ∈ cs, allowedCanonChar c = true := by
  intro cs
  induction cs with
  | nil => intro h; cases h
  | cons a t ih =>
    intro h c hc
    rw [closeParen] at h
    rcases List.mem_cons.mp hc with rfl | hc2
    · by_cases hd : isDigitC c = true
      · simp [allowedCanonChar, hd]
      · rw [if_neg hd, Bool.and_eq_true] at h
        have h41 : c.toNat = 41 := by simpa using h.1
        simp [allowedCanonChar, h41]
    · by_cases hd : isDigitC a = true
      · rw [if_pos hd] at h
        exact ih h c hc2
      · rw [if_neg hd, Bool.and_eq_true] at h
        rw [List.isEmpty_iff.mp h.2] at hc2
        cases hc2

lemma parenPart_chars : ∀ cs, parenPart cs = true →
    ∀ c ∈ cs, allowedCanonChar c = true := by
  intro cs h c hc
  cases cs with
  | nil => cases h
  | cons a t =>
    rw [parenPart, Bool.and_eq_true] at h
    rcases List.mem_cons.mp hc with rfl | hc2
    · simp [allowedCanonChar, h.1]
    · exact closeParen_chars t h.2 c hc2

lemma canonTail_chars : ∀ cs, canonTail cs = true →
    ∀ c ∈ cs, allowedCanonChar c = true := by
  intro cs
  induction cs with
  | nil => intro _ c hc; cases hc
  | cons a t ih =>
    intro h c hc
    rw [canonTail] at h
    rcases List.mem_cons.mp hc with rfl | hc2
    · by_cases hp : (c.toNat == 40) = true
      · have h40 : c.toNat = 40 := by simpa using hp
        simp [allowedCanonChar, h40]
      · rw [if_neg hp, Bool.and_eq_true] at h
        simp only [allowedCanonChar]
        rw [h.1]
        simp
    · by_cases hp : (a.toNat == 40) = true
      · rw [if_pos hp] at h
        exact parenPart_chars t h c hc2
      · rw [if_neg hp, Bool.and_eq_true] at h
        exact ih h.2 c hc2

lemma matchCanon_chars {cs : List Char} (h : matchCanon cs = true) :
    ∀ c ∈ cs, allowedCanonChar c = true := by
  intro c hc
  cases cs with
  | nil => cases hc
  | cons a t =>
    rw [matchCanon, Bool.and_eq_true] at h
    rcases List.mem_cons.mp hc with rfl | hc2
    · simp [allowedCanonChar, h.1]
    · exact canonTail_chars t h.2 c hc2

lemma allowed_not_ws {c : Char} (h : allowedCanonChar c = true) :
    isPyWS c = false := by
  have h2 := allowed_facts h
  rw [Bool.eq_false_iff]
  intro hw
  simp only [isPyWS, Bool.or_eq_true, beq_iff_eq] at hw
  omega

lemma allowed_not_star {c : Char} (h : allowedCanonChar c = true) :
    (c.toNat == 42) = false := by
  have h2 := allowed_facts h
  rw [Bool.eq_false_iff]
  intro hw
  rw [beq_iff_eq] at hw
  omega

lemma pyLower_apply_ne_space {c : Char} (h : allowedCanonChar c = true) :
    ¬ pyLower c = ' ' := by
  have h2 := allowed_facts h
  intro he
  rw [pyLower] at he
  by_cases hu : (65 ≤ c.toNat && c.toNat ≤ 90) = true
  · rw [if_pos hu] at he
    have h3 : (Char.ofNat (c.toNat + 32)).toNat = c.toNat + 32 :=
      toNat_ofNat_valid (by omega)
    rw [he] at h3
    have h4 : (' ' : Char).toNat = 32 := rfl
    omega
  · rw [if_neg hu] at he
    have h3 : c.toNat = 32 := by rw [he]; rfl
    omega

lemma dropWhile_eq_self_of_head {p : Char → Bool} {l : List Char}
    (h : ∀ c ∈ l, p c = false) : l.dropWhile p = l := by
  cases l with
  | nil => rfl
  | cons a t => simp [List.dropWhile_cons, h a (List.mem_cons_self a t)]

lemma pyStrip_eq_self {l : List Char} (h : ∀ c ∈ l, isPyWS c = false) :
    pyStrip l = l := by
  rw [pyStrip, dropWhile_eq_self_of_head h,
    dropWhile_eq_self_of_head (fun c hc => h c (List.mem_reverse.mp hc)),
    List.reverse_reverse]

lemma label_isPrefixOf_canon_eq_false {x : List Char}
    (hx : ∀ c ∈ x, allowedCanonChar c = true) {p : String}
    (hp : p ∈ prefixesToRemove) :
    (toLowerL p.toList).isPrefixOf (toLowerL x) = false := by
  have hsp : (' ' : Char) ∈ toLowerL p.toList := by
    simp only [prefixesToRemove] at hp
    fin_cases hp <;> decide
  by_contra hb
  simp only [Bool.not_eq_false, List.isPrefixOf_iff_prefix] at hb
  have hsub : (' ' : Char) ∈ toLowerL x := hb.subset hsp
  obtain ⟨c, hc, hlc⟩ := List.mem_map.mp hsub
  exact pyLower_apply_ne_space (hx c hc) hlc

lemma dropLangLabel_eq_self {x : List Char}
    (hx : ∀ c ∈ x, allowedCanonChar c = true) : dropLangLabel x = x := by
  rw [dropLangLabel]
  have hfind : prefixesToRemove.find?
      (fun p => (toLowerL p.toList).isPrefixOf (toLowerL x)) = none := by
    rw [List.find?_eq_none]
    intro p hp
    rw [label_isPrefixOf_canon_eq_false hx hp]
    simp
  rw [hfind]

lemma preClean_eq_self {x : List Char} (h : matchCanon x = true) :
    preClean x = x := by
  have hx : ∀ c ∈ x, allowedCanonChar c = true := matchCanon_chars h
  have hws : ∀ c ∈ x, isPyWS c = false := fun c hc => allowed_not_ws (hx c hc)
  rw [preClean, pyStrip_eq_self hws, dropLangLabel_eq_self hx,
    dropWhile_eq_self_of_head (fun c hc => allowed_not_star (hx c hc)),
    pyStrip_eq_self hws]

lemma validateRoot_eq_none {r : List Char}
    (h : (r.filter notPHChar).length < 3 ∨
      (r.filter notParenChar ≠ [] ∧
        (r.filter notParenChar).all isDigitC = true) ∨
      r.any pyIsAlpha = false ∨
      ((lettersAZ r).length = 3 ∧
        morphPatterns.contains (String.mk (lettersAZ r)) = true) ∨
      nonRoots.contains (String.mk (lettersAZ r)) = true) :
    validateRoot r = none := by
  rw [validateRoot]
  split
  · rfl
  · next h1 =>
    split
    · rfl
    · next h2 =>
      split
      · rfl
      · next h3 =>
        split
        · rfl
        · next h4 =>
          split
          · rfl
          · next h5 =>
            exfalso
            rcases h with h | h | h | h | h
            · exact h1 h
            · apply h2
              cases hfp : r.filter notParenChar with
              | nil => exact absurd hfp h.1
              | cons a t =>
                rw [hfp] at h
                simp [h.2]
            · apply h3
              simp [h]
            · apply h4
              rw [Bool.and_eq_true]
              exact ⟨by simpa using h.1, h.2⟩
            · exact h5 h

lemma recordFailures_val (st : String → Option Nat) (w : String)
    (h : st (normWord w) = none) :
    ∀ k, recordFailures st w k (normWord w) =
      if k = 0 then none else some k := by
  intro k
  induction k with
  | zero => simpa [recordFailures]
  | succ n ih =>
    rw [recordFailures, recordWordFailure]
    simp only [if_pos rfl, ih]
    cases n <;> simp

lemma not_posted_of_mem_candidate {it iq : Bool}
    {q : String → String → String → Bool} {roots : List RootEntry}
    {posted : List (String × String)} {r w1 w2 : String} {g : Option String}
    (h : (r, w1, w2, g) ∈ candidatePairs it iq q roots posted) :
    (w1, w2) ∉ posted := by
  simp only [candidatePairs, List.mem_flatMap] at h
  obtain ⟨e, _he, hmem⟩ := h
  by_cases hl : e.words.length < 2
  · rw [if_pos hl] at hmem
    cases hmem
  · rw [if_neg hl] at hmem
    simp only [List.mem_filterMap] at hmem
    obtain ⟨p, _hp, heq⟩ := hmem
    by_cases hpost : (p.1, p.2) ∈ posted
    · rw [if_pos hpost] at heq
      cases heq
    · rw [if_neg hpost] at heq
      by_cases h2 : (!it && looksLikeTrivialAffix e.root p.1 p.2) = true
      · rw [if_pos h2] at heq
        cases heq
      · rw [if_neg h2] at heq
        by_cases h3 : (!iq && q e.root p.1 p.2) = true
        · rw [if_pos h3] at heq
          cases heq
        · rw [if_neg h3] at heq
          rw [Option.some.injEq, Prod.mk.injEq, Prod.mk.injEq,
            Prod.mk.injEq] at heq
          obtain ⟨_, rfl, rfl, _⟩ := heq
          exact hpost

lemma mem_addPostedBoth {posted : List (String × String)}
    {x : String × String} (p : String × String) (h : x ∈ posted) :
    x ∈ addPostedBoth posted p := by
  simp only [addPostedBoth, List.mem_cons]
  tauto

lemma mem_foldl_addPostedBoth {x : String × String} :
    ∀ (rest : List (String × String)) (posted : List (String × String)),
      x ∈ posted → x ∈ rest.foldl addPostedBoth posted
  | [], _, h => h
  | p :: ps, posted, h =>
    mem_foldl_addPostedBoth ps (addPostedBoth posted p)
      (mem_addPostedBoth p h)

/-! ## Claim theorems -/

/-- C2: Ablaut unification — `canonical_id` maps each of "habban", "habjan"
and "hebban" to the same accepted canonical id "HABJAN". -/
theorem canonicalId_ablaut_unification :
    canonicalId "habban" = some "HABJAN" ∧
    canonicalId "habjan" = some "HABJAN" ∧
    canonicalId "hebban" = some "HABJAN" := by
  decide

/-- C5 counterexample: the claim states
`is_trivial("sal", "salary", "salad") = false`, but "sal" occurs as a
substring of both "salary" and "salad", so `looks_like_trivial_affix`
returns `true`. -/
theorem trivialAffix_sal_counterexample :
    looksLikeTrivialAffix "sal" "salary" "salad" = true := by
  decide

/-- C5 (amended): both example pairings are trivial —
`is_trivial("sal", "salary", "salad") = true` (the root "sal" is literally
present as a substring of both words) and
`is_trivial("car", "car", "cart") = true`. -/
theorem trivialAffix_examples :
    looksLikeTrivialAffix "sal" "salary" "salad" = true ∧
    looksLikeTrivialAffix "car" "car" "cart" = true := by
  decide

/-- C6: triviality filter contract — `looks_like_trivial_affix` returns true
iff the cleaned root form (lowercased, hyphens stripped from both ends) has
length at least 3 and occurs as a substring of both lowercased words; an
empty root or word yields false rather than an error. -/
theorem trivialAffix_contract (root w1 w2 : String) :
    (looksLikeTrivialAffix root w1 w2 = true ↔
      3 ≤ (cleanRootForm root).length ∧
      isSubList (cleanRootForm root) (toLowerL w1.toList) = true ∧
      isSubList (cleanRootForm root) (toLowerL w2.toList) = true) ∧
    ((root = "" ∨ w1 = "" ∨ w2 = "") →
      looksLikeTrivialAffix root w1 w2 = false) := by
  have hsubnil : ∀ n : List Char, isSubList n [] = true → n = [] := by
    intro n h
    have he : isSubList n [] = n.isEmpty := rfl
    rw [he] at h
    exact List.isEmpty_iff.mp h
  constructor
  · constructor
    · intro hT
      rw [looksLikeTrivialAffix] at hT
      split at hT
      · cases hT
      · split at hT
        · cases hT
        · next hlen =>
          rw [Bool.and_eq_true] at hT
          exact ⟨by omega, hT.1, hT.2⟩
    · rintro ⟨h3, hs1, hs2⟩
      have hclean : cleanRootForm root ≠ [] := by
        intro hc
        rw [hc] at h3
        simp at h3
      have hroot : root.toList ≠ [] := by
        intro hr
        apply hclean
        rw [cleanRootForm, hr]
        rfl
      have hw1 : w1.toList ≠ [] := by
        intro hr
        rw [hr] at hs1
        exact hclean (hsubnil _ hs1)
      have hw2 : w2.toList ≠ [] := by
        intro hr
        rw [hr] at hs2
        exact hclean (hsubnil _ hs2)
      rw [looksLikeTrivialAffix, if_neg, if_neg]
      · rw [Bool.and_eq_true]
        exact ⟨hs1, hs2⟩
      · omega
      · intro hb
        simp only [Bool.or_eq_true, List.isEmpty_iff] at hb
        tauto
  · intro h
    rcases h with rfl | rfl | rfl
    · have he : ("" : String).toList = [] := rfl
      simp [looksLikeTrivialAffix, he]
    · have he : ("" : String).toList = [] := rfl
      simp [looksLikeTrivialAffix, he]
    · have he : ("" : String).toList = [] := rfl
      simp [looksLikeTrivialAffix, he]

/-- C6 witness: the contract instantiated at ("car", "car", "cart"). -/
theorem trivialAffix_contract_witness :
    looksLikeTrivialAffix "car" "car" "cart" = true ↔
      3 ≤ (cleanRootForm "car").length ∧
      isSubList (cleanRootForm "car") (toLowerL ("car" : String).toList) = true ∧
      isSubList (cleanRootForm "car") (toLowerL ("cart" : String).toList) = true :=
  (trivialAffix_contract "car" "car" "cart").1

/-- C4: consensus admission — a root in the builder's input is admitted to
the output iff the union of its source identifiers has cardinality at least
2 and it has at least 2 distinct words; the two-word cluster
{"have", "hover"} is admitted with 2 distinct sources and rejected with
1 source. -/
theorem consensus_admission :
    (∀ (obs : List (String × String × Nat)) (r : String), r ∈ rootsOf obs →
      (r ∈ consensusRoots obs ↔
        2 ≤ (rootSources obs r).length ∧ 2 ≤ (rootWords obs r).length)) ∧
    "HABJAN" ∈ consensusRoots [("HABJAN", "have", 1), ("HABJAN", "hover", 2)] ∧
    "HABJAN" ∉ consensusRoots [("HABJAN", "have", 1), ("HABJAN", "hover", 1)] := by
  refine ⟨?_, by decide, by decide⟩
  intro obs r h
  simp [consensusRoots, List.mem_filter, h]

/-- C4 witness: the admission criterion instantiated at the two-source
observation list. -/
theorem consensus_admission_witness :
    "HABJAN" ∈ consensusRoots [("HABJAN", "have", 1), ("HABJAN", "hover", 2)] ↔
      2 ≤ (rootSources [("HABJAN", "have", 1), ("HABJAN", "hover", 2)]
        "HABJAN").length ∧
      2 ≤ (rootWords [("HABJAN", "have", 1), ("HABJAN", "hover", 2)]
        "HABJAN").length :=
  consensus_admission.1 [("HABJAN", "have", 1), ("HABJAN", "hover", 2)]
    "HABJAN" (by decide)

/-- C8: failure threshold — for a word with no prior failure record and a
threshold of at least 1, `is_word_problematic` is true after exactly
`max_word_failures` calls to `record_word_failure` and false after
`max_word_failures - 1` calls. -/
theorem failure_threshold (st : String → Option Nat) (w : String) (t : Nat)
    (ht : 1 ≤ t) (h : st (normWord w) = none) :
    isWordProblematic t (recordFailures st w t) w = true ∧
    isWordProblematic t (recordFailures st w (t - 1)) w = false := by
  have hv := recordFailures_val st w h
  constructor
  · rw [isWordProblematic, hv t, if_neg (by omega)]
    simp
  · rw [isWordProblematic, hv (t - 1)]
    by_cases h1 : t - 1 = 0
    · rw [if_pos h1]
    · rw [if_neg h1]
      simp only [decide_eq_false_iff_not]
      omega

/-- C8 witness: threshold 2 on an empty store. -/
theorem failure_threshold_witness :
    isWordProblematic 2 (recordFailures (fun _ => none) "x" 2) "x" = true ∧
    isWordProblematic 2 (recordFailures (fun _ => none) "x" 1) "x" = false :=
  failure_threshold (fun _ => none) "x" 2 (by decide) rfl

/-- C9: fail-closed posted check — when the store query inside
`is_pair_posted` fails, the function returns true (the pair is conservatively
treated as already posted) instead of propagating the error. -/
theorem isPairPosted_fail_closed {ε : Type} (e : ε) (w1 w2 : String) :
    isPairPosted (Except.error e) w1 w2 = true :=
  rfl

/-- C1: no-repeat guarantee — a pair in the candidate list (hence returnable
by `select_fresh_pair`), once recorded into the posted history, is never a
candidate again in either orientation, across arbitrarily many further
record cycles. -/
theorem selectFreshPair_no_repeat (it iq : Bool)
    (q : String → String → String → Bool) (roots : List RootEntry)
    (posted : List (String × String)) (r w1 w2 : String) (g : Option String)
    (_hsel : (r, w1, w2, g) ∈ candidatePairs it iq q roots posted)
    (rest : List (String × String)) (r2 : String) (g2 : Option String) :
    (r2, w1, w2, g2) ∉
      candidatePairs it iq q roots
        (rest.foldl addPostedBoth (addPostedBoth posted (w1, w2))) ∧
    (r2, w2, w1, g2) ∉
      candidatePairs it iq q roots
        (rest.foldl addPostedBoth (addPostedBoth posted (w1, w2))) := by
  have h1 : (w1, w2) ∈ rest.foldl addPostedBoth (addPostedBoth posted (w1, w2)) :=
    mem_foldl_addPostedBoth rest _ (by simp [addPostedBoth])
  have h2 : (w2, w1) ∈ rest.foldl addPostedBoth (addPostedBoth posted (w1, w2)) :=
    mem_foldl_addPostedBoth rest _ (by simp [addPostedBoth])
  exact ⟨fun hc => not_posted_of_mem_candidate hc h1,
    fun hc => not_posted_of_mem_candidate hc h2⟩

/-- C1 witness: with the single root family HABJAN = {have, hover}, the pair
(have, hover) is a candidate on an empty history and, after being recorded,
is excluded in both orientations. -/
theorem selectFreshPair_no_repeat_witness :
    ("HABJAN", "have", "hover", (none : Option String)) ∉
      candidatePairs false false (fun _ _ _ => false)
        [⟨"HABJAN", ["have", "hover"], none⟩]
        (List.foldl addPostedBoth (addPostedBoth [] ("have", "hover")) []) ∧
    ("HABJAN", "hover", "have", (none : Option String)) ∉
      candidatePairs false false (fun _ _ _ => false)
        [⟨"HABJAN", ["have", "hover"], none⟩]
        (List.foldl addPostedBoth (addPostedBoth [] ("have", "hover")) []) :=
  selectFreshPair_no_repeat false false (fun _ _ _ => false)
    [⟨"HABJAN", ["have", "hover"], none⟩] [] "HABJAN" "have" "hover" none
    (by decide) [] "HABJAN" none

/-- C10: early-return bypass — whenever the cleaned input already matches the
canonical surface form, `canonical_id` returns it unchanged, skipping
normalization and all rejection checks; in particular "CAR" is accepted as
"CAR" while "car" is rejected. -/
theorem canonicalId_early_return :
    (∀ s : String, matchCanon (preClean s.toList) = true →
      canonicalId s = some (String.mk (preClean s.toList))) ∧
    canonicalId "CAR" = some "CAR" ∧ canonicalId "car" = none := by
  refine ⟨?_, by decide, by decide⟩
  intro s h
  simp only [canonicalId]
  rw [if_pos h]

/-- C10 witness: the early return instantiated at "AB-", a root that the
validation path would reject (only 2 letters) but that is returned
unchanged. -/
theorem canonicalId_early_return_witness :
    canonicalId "AB-" = some (String.mk (preClean ("AB-" : String).toList)) :=
  canonicalId_early_return.1 "AB-" (by decide)

/-- C7 counterexample: "HABBAN1" is an accepted canonical id (it is returned
by `canonical_id` on input "hab-ban1"), yet re-canonicalizing it yields
"HABJAN1": hyphen removal happens after gemination collapse and ablaut
mapping, so the second pass sees the geminate "BB" that the first pass left
behind. -/
theorem canonicalId_idempotence_counterexample :
    canonicalId "hab-ban1" = some "HABBAN1" ∧
    canonicalId "HABBAN1" = some "HABJAN1" := by
  decide

/-- C7 (amended): `canonical_id` is idempotent on every canonical id that
matches the canonical surface form (uppercase letters and hyphens with an
optional numbered-sense suffix) — in particular on every accepted all-letter
id; idempotence can fail for accepted ids containing other word characters
such as digits. -/
theorem canonicalId_idempotent_on_surface_form (s : String)
    (h : matchCanon s.toList = true) : canonicalId s = some s := by
  simp only [canonicalId]
  rw [preClean_eq_self h, if_pos h]
  rfl

/-- C7 witness: idempotence at the already-canonical id "BHEL". -/
theorem canonicalId_idempotent_witness :
    canonicalId "BHEL" = some "BHEL" :=
  canonicalId_idempotent_on_surface_form "BHEL" (by decide)

/-- C3 counterexample: the claim as stated fails twice.  The input "ab1" is
accepted as "AB1" although that result has only 2 alphabetic characters (the
code counts total characters, not alphabetic ones), and the uppercase input
"CAR" is accepted via the early return although "CAR" is on the curated
short-word list. -/
theorem canonicalId_rejection_counterexample :
    canonicalId "ab1" = some "AB1" ∧
    (("AB1" : String).toList.filter pyIsAlpha).length = 2 ∧
    canonicalId "CAR" = some "CAR" ∧
    morphPatterns.contains "CAR" = true := by
  decide

/-- C3 (amended): for every input whose cleaned form does not take the
early return, `canonical_id` returns rejection whenever the normalized
result has fewer than 3 characters once parentheses and hyphens are removed,
is purely numeric, contains no letters, or — when its A-Z-only projection
has exactly 3 letters — is on the curated short-word list, or its A-Z-only
projection is on the closed non-root stoplist; in particular
`canonical_id("car")` and `canonical_id("the")` are both rejected. -/
theorem canonicalId_rejection :
    (∀ s : String, matchCanon (preClean s.toList) = false →
      ((normalizeRoot (preClean s.toList)).filter notPHChar).length < 3 ∨
        ((normalizeRoot (preClean s.toList)).filter notParenChar ≠ [] ∧
          ((normalizeRoot (preClean s.toList)).filter notParenChar).all
            isDigitC = true) ∨
        (normalizeRoot (preClean s.toList)).any pyIsAlpha = false ∨
        ((lettersAZ (normalizeRoot (preClean s.toList))).length = 3 ∧
          morphPatterns.contains
            (String.mk (lettersAZ (normalizeRoot (preClean s.toList)))) =
              true) ∨
        nonRoots.contains
          (String.mk (lettersAZ (normalizeRoot (preClean s.toList)))) = true →
      canonicalId s = none) ∧
    canonicalId "car" = none ∧ canonicalId "the" = none := by
  refine ⟨?_, by decide, by decide⟩
  intro s hm hrej
  have hm2 : matchCanon (preClean s.data) = false := hm
  simp only [canonicalId]
  rw [if_neg (by simp [hm2]), validateRoot_eq_none hrej]
  rfl

/-- C3 witness: the rejection criterion instantiated at the purely numeric
input "123". -/
theorem canonicalId_rejection_witness :
    canonicalId "123" = none :=
  canonicalId_rejection.1 "123" (by decide) (by decide)
